import Mathlib

set_option maxRecDepth 100000
set_option maxHeartbeats 1000000

/-!
Verification of the UniswapV4SlotFinder scripts.

This file gives a shallow embedding of the core algorithms of the
repository's four scripts (`Uniswapv4PoolReader.js`, `storageSlot.js`,
`debug.js`, `testAlchemy.js`) and proves the specified properties about
them:

* a full executable Keccak-256 (the scripts call `ethers.keccak256`);
* the static ABI encoder for the primitive types the scripts use
  (`ethers.AbiCoder.defaultAbiCoder().encode`) and the tightly packed
  encoder (`ethers.solidityPacked`);
* `calculateStorageSlot` / `calculatePoolStorageSlot` — mapping-slot
  derivation (keccak of the encoded (bytes32 key, uint256 slot) pair);
* `decodePoolState` — bit-field extraction of the packed pool-state word
  with two's-complement sign extension of the 24-bit tick;
* `calculatePoolId` — address-pair canonicalization (JavaScript
  lowercase-string comparison) followed by ABI encoding and hashing;
* `readStorageSlot` / `findCorrectPoolsSlot` — the probe loop over
  candidate base-slot indices (`probeLoop` generalizes the hard-coded
  0..20 range of the script to an arbitrary start index and count).

Bytes are modelled as `Nat` (values < 256), byte strings as `List Nat`,
machine integers as `Nat`/`Int` with explicit masks, and the throwing
storage reader as a function into `Except Unit`.
-/

/-! ### Keccak-256 (the `ethers.keccak256` library call) -/

/-- Left rotation of a 64-bit lane. -/
def rotl64 (x n : Nat) : Nat :=
  ((x <<< n) ||| (x >>> (64 - n))) &&& (2 ^ 64 - 1)

/-- Round constants of Keccak-f[1600], three rounds per row. -/
def keccakRC : List Nat :=
  [[0x0000000000000001, 0x0000000000008082, 0x800000000000808A],
   [0x8000000080008000, 0x000000000000808B, 0x0000000080000001],
   [0x8000000080008081, 0x8000000000008009, 0x000000000000008A],
   [0x0000000000000088, 0x0000000080008009, 0x000000008000000A],
   [0x000000008000808B, 0x800000000000008B, 0x8000000000008089],
   [0x8000000000008003, 0x8000000000008002, 0x8000000000000080],
   [0x000000000000800A, 0x800000008000000A, 0x8000000080008081],
   [0x8000000000008080, 0x0000000080000001, 0x8000000080008008]].flatten

/-- Rotation offsets of the rho step: the row for plane `y` lists the offsets
of lanes `(0, y)` through `(4, y)`, so the flattened list is indexed by lane
`x + 5 * y`. -/
def rhoOffsets : List Nat :=
  [[0, 1, 62, 28, 27],
   [36, 44, 6, 55, 20],
   [3, 10, 43, 25, 39],
   [41, 45, 15, 21, 8],
   [18, 2, 61, 56, 14]].flatten

/-- Theta step of Keccak-f[1600] on a 25-lane state. -/
def thetaStep (s : List Nat) : List Nat :=
  let c := (List.range 5).map fun x =>
    s.getD x 0 ^^^ s.getD (x + 5) 0 ^^^ s.getD (x + 10) 0 ^^^ s.getD (x + 15) 0 ^^^
      s.getD (x + 20) 0
  let d := (List.range 5).map fun x =>
    c.getD ((x + 4) % 5) 0 ^^^ rotl64 (c.getD ((x + 1) % 5) 0) 1
  (List.range 25).map fun i => s.getD i 0 ^^^ d.getD (i % 5) 0

/-- Combined rho and pi steps: rotate each lane and move it to its pi position. -/
def rhoPiStep (s : List Nat) : List Nat :=
  (List.range 25).foldl
    (fun b i =>
      let x := i % 5
      let y := i / 5
      b.set (y + 5 * ((2 * x + 3 * y) % 5)) (rotl64 (s.getD i 0) (rhoOffsets.getD i 0)))
    (List.replicate 25 0)

/-- Chi step of Keccak-f[1600]. -/
def chiStep (b : List Nat) : List Nat :=
  (List.range 25).map fun i =>
    let x := i % 5
    let y := i / 5
    b.getD i 0 ^^^ ((b.getD ((x + 1) % 5 + 5 * y) 0 ^^^ (2 ^ 64 - 1)) &&&
      b.getD ((x + 2) % 5 + 5 * y) 0)

/-- One round of Keccak-f[1600]: theta, rho, pi, chi, iota. -/
def keccakRound (s : List Nat) (rc : Nat) : List Nat :=
  let t := chiStep (rhoPiStep (thetaStep s))
  t.set 0 (t.getD 0 0 ^^^ rc)

/-- The full 24-round Keccak-f[1600] permutation. -/
def keccakF (s : List Nat) : List Nat := keccakRC.foldl keccakRound s

/-- Interpret up to eight bytes as a little-endian 64-bit lane. -/
def bytesToLane (bs : List Nat) : Nat := bs.foldr (fun b acc => b + 256 * acc) 0

/-- Absorb one 136-byte rate block into the state and permute. -/
def absorbBlock (s : List Nat) (block : List Nat) : List Nat :=
  keccakF ((List.range 25).map fun i =>
    if i < 17 then s.getD i 0 ^^^ bytesToLane ((block.drop (8 * i)).take 8) else s.getD i 0)

/-- Absorb `n` consecutive 136-byte blocks of `msg`. -/
def absorbBlocks : Nat → List Nat → List Nat → List Nat
  | 0, s, _ => s
  | n + 1, s, msg => absorbBlocks n (absorbBlock s (msg.take 136)) (msg.drop 136)

/-- Multi-rate pad10*1 padding with the Keccak domain byte 0x01. -/
def keccakPad (msg : List Nat) : List Nat :=
  let padLen := 136 - msg.length % 136
  if padLen = 1 then msg ++ [0x81]
  else msg ++ 0x01 :: (List.replicate (padLen - 2) 0 ++ [0x80])

/-- Keccak-256 of a byte string, as a list of 32 bytes. -/
def keccak256 (msg : List Nat) : List Nat :=
  let padded := keccakPad msg
  let s := absorbBlocks (padded.length / 136) (List.replicate 25 0) padded
  (List.range 32).map fun i => ((s.getD (i / 8) 0) >>> (8 * (i % 8))) &&& 255

/-! ### Byte serialization and the two encoders used by the scripts -/

/-- Big-endian bytes of `n`, truncated/padded to exactly `w` bytes. -/
def natToBytesBE : Nat → Nat → List Nat
  | 0, _ => []
  | w + 1, n => natToBytesBE w (n / 256) ++ [n % 256]

/-- Value of a byte string read as a big-endian integer. -/
def bytesToNatBE (bs : List Nat) : Nat := bs.foldl (fun acc b => 256 * acc + b) 0

/-- Primitive ABI values appearing in the scripts' type lists. -/
inductive AbiValue
  | bytes32 (v : Nat)
  | uint256 (v : Nat)
  | uint24 (v : Nat)
  | int24 (v : Int)
  | address (v : Nat)

/-- Head word of one static value under `ethers.AbiCoder.defaultAbiCoder().encode`:
every static value occupies one 32-byte word; unsigned values and addresses are
left-zero-padded big-endian, `int24` is sign-extended two's complement, and
`bytes32` is the 32 bytes themselves. -/
def encodeWord : AbiValue → List Nat
  | .bytes32 v => natToBytesBE 32 v
  | .uint256 v => natToBytesBE 32 v
  | .uint24 v => natToBytesBE 32 v
  | .int24 v => natToBytesBE 32 (v % (2 ^ 256 : Int)).toNat
  | .address v => natToBytesBE 32 v

/-- Static-tuple ABI encoding: the concatenation of the 32-byte head words. -/
def abiEncode (vs : List AbiValue) : List Nat := (vs.map encodeWord).flatten

/-- One value under `ethers.solidityPacked`: each value keeps exactly its own
declared width with no padding between values. -/
def packedWord : AbiValue → List Nat
  | .bytes32 v => natToBytesBE 32 v
  | .uint256 v => natToBytesBE 32 v
  | .uint24 v => natToBytesBE 3 v
  | .int24 v => natToBytesBE 3 (v % (2 ^ 24 : Int)).toNat
  | .address v => natToBytesBE 20 v

/-- Tightly packed encoding (`ethers.solidityPacked`). -/
def solidityPacked (vs : List AbiValue) : List Nat := (vs.map packedWord).flatten

/-! ### Mapping-slot derivation (`calculateStorageSlot`, `calculatePoolStorageSlot`) -/

/-- Storage slot 6, where the `_pools` mapping lives (`POOL_STATE_SLOT`). -/
def POOL_STATE_SLOT : Nat := 6

/-- Embedding of `StorageSlotFinder.calculateStorageSlot` from `storageSlot.js`:
ABI-encode the pair `(poolId : bytes32, slotNumber : uint256)` and keccak-hash
the encoding. -/
def calculateStorageSlot (poolId slotNumber : Nat) : List Nat :=
  keccak256 (abiEncode [.bytes32 poolId, .uint256 slotNumber])

/-- Embedding of `UniswapV4PoolReader.calculatePoolStorageSlot` from
`Uniswapv4PoolReader.js`; identical computation with the slot fixed to
`POOL_STATE_SLOT`. -/
def calculatePoolStorageSlot (poolId : Nat) : List Nat :=
  keccak256 (abiEncode [.bytes32 poolId, .uint256 POOL_STATE_SLOT])

/-! ### Packed pool-state decoding (`decodePoolState`) -/

/-- Decoded pool state. The script returns the decimal string renderings of
these numbers; we model the numeric values. `tick` is the one signed field. -/
structure PoolState where
  sqrtPriceX96 : Nat
  tick : Int
  protocolFee : Nat
  lpFee : Nat
  rawData : Nat

/-- Embedding of `UniswapV4PoolReader.decodePoolState`: extract the packed
bit-fields of the 256-bit word and convert the 24-bit tick from unsigned to
signed exactly as the script does. -/
def decodePoolState (rawData : Nat) : PoolState :=
  let data := rawData
  let sqrtPriceX96 := data &&& ((1 <<< 160) - 1)
  let tick := (data >>> 160) &&& ((1 <<< 24) - 1)
  let protocolFee := (data >>> 184) &&& ((1 <<< 24) - 1)
  let lpFee := (data >>> 208) &&& ((1 <<< 24) - 1)
  let maxTickValue := (1 <<< 23) - 1
  let signedTick : Int := if maxTickValue < tick then (tick : Int) - ((1 <<< 24 : Nat) : Int)
    else (tick : Int)
  { sqrtPriceX96 := sqrtPriceX96, tick := signedTick, protocolFee := protocolFee,
    lpFee := lpFee, rawData := rawData }

/-! ### Pool-id computation (`calculatePoolId`)

Addresses are modelled as the list of the 40 hex-digit character codes of the
address string (the constant `"0x"` prefix compares equal on both sides of the
script's string comparison and is dropped by the hex parser, so it is omitted).
-/

/-- JavaScript `toLowerCase` on an ASCII character code. -/
def lowerCode (c : Nat) : Nat := if 65 ≤ c ∧ c ≤ 90 then c + 32 else c

/-- JavaScript string `<` on lists of character codes: lexicographic order. -/
def lexLt : List Nat → List Nat → Bool
  | [], [] => false
  | [], _ :: _ => true
  | _ :: _, [] => false
  | a :: as, b :: bs => if a < b then true else if b < a then false else lexLt as bs

/-- The script's address comparison `a.toLowerCase() < b.toLowerCase()`. -/
def addrLt (a b : List Nat) : Bool := lexLt (a.map lowerCode) (b.map lowerCode)

/-- Value of a single hex-digit character code (`0`-`9`, `A`-`F`, `a`-`f`). -/
def digitVal (c : Nat) : Nat := if c ≤ 57 then c - 48 else if c ≤ 70 then c - 55 else c - 87

/-- Numeric value of an address: parse the hex digits case-insensitively
(what `ethers` does when it encodes the address string). -/
def addrVal (a : List Nat) : Nat := (a.map digitVal).foldl (fun acc d => 16 * acc + d) 0

/-- Character code of a hex digit. -/
abbrev isHexDigit (c : Nat) : Prop :=
  (48 ≤ c ∧ c ≤ 57) ∨ (65 ≤ c ∧ c ≤ 70) ∨ (97 ≤ c ∧ c ≤ 102)

/-- Character code of a lowercase hex digit. -/
abbrev isLowerHexDigit (c : Nat) : Prop := (48 ≤ c ∧ c ≤ 57) ∨ (97 ≤ c ∧ c ≤ 102)

/-- Well-formed address: 40 hex-digit character codes. -/
abbrev validAddr (a : List Nat) : Prop := a.length = 40 ∧ ∀ c ∈ a, isHexDigit c

/-- The script's canonicalization step
`currency0.toLowerCase() < currency1.toLowerCase() ? [currency0, currency1] : [currency1, currency0]`. -/
def canonicalPair (currency0 currency1 : List Nat) : List Nat × List Nat :=
  if addrLt currency0 currency1 then (currency0, currency1) else (currency1, currency0)

/-- Embedding of `UniswapV4PoolReader.calculatePoolId`: order the two currency
addresses, ABI-encode `(address, address, uint24, int24, address)` and hash. -/
def calculatePoolId (currency0 currency1 : List Nat) (fee : Nat) (tickSpacing : Int)
    (hookAddress : List Nat) : List Nat :=
  let p := canonicalPair currency0 currency1
  keccak256 (abiEncode [.address (addrVal p.1), .address (addrVal p.2), .uint24 fee,
    .int24 tickSpacing, .address (addrVal hookAddress)])

/-- Character codes of the address `0x77933D339C88458450676156820D6e28bCc98BF5`
(`currency0` in the usage example of `Uniswapv4PoolReader.js`). -/
def currency0Codes : List Nat :=
  [55, 55, 57, 51, 51, 68, 51, 51, 57, 67, 56, 56, 52, 53, 56, 52, 53, 48, 54, 55,
   54, 49, 53, 54, 56, 50, 48, 68, 54, 101, 50, 56, 98, 67, 99, 57, 56, 66, 70, 53]

/-- Character codes of the address `0xfb4cCCd1485FD56C1E6BF93274778d2F7aBe546D`
(`currency1` in the usage example of `Uniswapv4PoolReader.js`). -/
def currency1Codes : List Nat :=
  [102, 98, 52, 99, 67, 67, 100, 49, 52, 56, 53, 70, 68, 53, 54, 67, 49, 69, 54, 66,
   70, 57, 51, 50, 55, 52, 55, 55, 56, 100, 50, 70, 55, 97, 66, 101, 53, 52, 54, 68]

/-- Character codes of the hook address `0x70Fe3Fa2f8065898706674Acd03D7b2696161000`
from the usage example of `Uniswapv4PoolReader.js`. -/
def hookAddressCodes : List Nat :=
  [55, 48, 70, 101, 51, 70, 97, 50, 102, 56, 48, 54, 53, 56, 57, 56, 55, 48, 54, 54,
   55, 52, 65, 99, 100, 48, 51, 68, 55, 98, 50, 54, 57, 54, 49, 54, 49, 48, 48, 48]

/-! ### Slot probing (`readStorageSlot`, `findCorrectPoolsSlot`) -/

/-- The known pool id used by `storageSlot.js` (`KNOWN_POOL_ID`). -/
def KNOWN_POOL_ID : Nat := 0x2b12523c52f9376439968e70e1f10ccc106ac80781bf40b0c8eeb2c19a22382e

/-- The expected raw word from `storageSlot.js` (`EXPECTED_RAW_DATA`). -/
def EXPECTED_RAW_DATA : List Nat :=
  natToBytesBE 32 0x000000004e20000000fd435c000000000000000000085a6afa601db20218ff54

/-- The all-zero 32-byte word. -/
def zeroWord32 : List Nat := List.replicate 32 0

/-- Decidable equality of reader results, used to state concrete probe runs. -/
instance : DecidableEq (Except Unit (List Nat)) := fun a b =>
  match a, b with
  | .ok x, .ok y =>
    if h : x = y then isTrue (by rw [h]) else isFalse (by intro hc; cases hc; exact h rfl)
  | .error x, .error y => isTrue (by cases x; cases y; rfl)
  | .ok _, .error _ => isFalse (fun hc => Except.noConfusion hc)
  | .error _, .ok _ => isFalse (fun hc => Except.noConfusion hc)

/-- Embedding of `StorageSlotFinder.readStorageSlot`: call the throwing
storage reader and catch any failure, turning it into `null` (`none`). -/
def readStorageSlot (getStorage : List Nat → Except Unit (List Nat))
    (storageSlot : List Nat) : Option (List Nat) :=
  match getStorage storageSlot with
  | .ok data => some data
  | .error _ => none

/-- The loop body of `StorageSlotFinder.findCorrectPoolsSlot`, generalized from
the script's hard-coded `for (let slotNumber = 0; slotNumber <= 20; ...)` to an
arbitrary start index and iteration count: derive the slot for the current
index, read it, return the index on a match, and otherwise (no data or
non-matching data) continue with the next index. -/
def probeLoop (getStorage : List Nat → Except Unit (List Nat)) (poolId : Nat)
    (expected : List Nat) : Nat → Nat → Option Nat
  | 0, _ => none
  | count + 1, slotNumber =>
    match readStorageSlot getStorage (calculateStorageSlot poolId slotNumber) with
    | some data =>
      if data = expected then some slotNumber
      else probeLoop getStorage poolId expected count (slotNumber + 1)
    | none => probeLoop getStorage poolId expected count (slotNumber + 1)

/-- Embedding of `StorageSlotFinder.findCorrectPoolsSlot`: probe slot indices
0 through 20 for `KNOWN_POOL_ID` against `EXPECTED_RAW_DATA`. -/
def findCorrectPoolsSlot (getStorage : List Nat → Except Unit (List Nat)) : Option Nat :=
  probeLoop getStorage KNOWN_POOL_ID EXPECTED_RAW_DATA 21 0

/-- Synthetic reader that stores the expected word only at the index-3 slot. -/
def syntheticReader (s : List Nat) : List Nat :=
  if s = calculateStorageSlot KNOWN_POOL_ID 3 then EXPECTED_RAW_DATA else zeroWord32

/-- Reader that fails at the index-0 slot and stores the expected word at the
index-1 slot. -/
def failingReader (s : List Nat) : Except Unit (List Nat) :=
  if s = calculateStorageSlot KNOWN_POOL_ID 0 then .error ()
  else if s = calculateStorageSlot KNOWN_POOL_ID 1 then .ok EXPECTED_RAW_DATA
  else .ok zeroWord32

/-! ### The two encoding paths of `debug.js` -/

/-- The pool id constant of `debug.js`. -/
def debugPoolId : Nat := 0x2b12523c52f9376439968e70e1f10ccc106ac80781bf40b0c8eeb2c19a22382e

/-- `debug.js` method 1: `defaultAbiCoder().encode(["bytes32", "uint256"], ...)`. -/
def encodedSlot : List Nat := abiEncode [.bytes32 debugPoolId, .uint256 POOL_STATE_SLOT]

/-- `debug.js` method 1 hash: `calculatedSlot = ethers.keccak256(encodedSlot)`. -/
def calculatedSlot : List Nat := keccak256 encodedSlot

/-- `debug.js` method 2: `solidityPacked(["bytes32", "uint256"], ...)`. -/
def manualEncoded : List Nat := solidityPacked [.bytes32 debugPoolId, .uint256 POOL_STATE_SLOT]

/-- `debug.js` method 2 hash: `manualHash = ethers.keccak256(manualEncoded)`. -/
def manualHash : List Nat := keccak256 manualEncoded

/-! ### Serialization lemmas -/

theorem natToBytesBE_length (w : Nat) : ∀ n, (natToBytesBE w n).length = w := by
  induction w with
  | zero => intro n; rfl
  | succ w ih =>
    intro n
    simp [natToBytesBE, ih]

theorem natToBytesBE_foldl (w : Nat) : ∀ n a,
    List.foldl (fun acc b => 256 * acc + b) a (natToBytesBE w n) =
      a * 256 ^ w + n % 256 ^ w := by
  induction w with
  | zero => intro n a; simp [natToBytesBE, Nat.mod_one]
  | succ w ih =>
    intro n a
    rw [natToBytesBE, List.foldl_append, ih]
    have h1 : (256 : Nat) ^ (w + 1) = 256 * 256 ^ w := by
      rw [pow_succ, Nat.mul_comm]
    simp only [List.foldl]
    rw [h1, Nat.mod_mul]
    ring

theorem bytesToNatBE_natToBytesBE (w n : Nat) :
    bytesToNatBE (natToBytesBE w n) = n % 256 ^ w := by
  rw [bytesToNatBE, natToBytesBE_foldl]
  simp

/-! ### Claim theorems -/

/-- C1: for every 32-byte mapping key and base slot index (each a `uint256`
value), `calculateStorageSlot` returns the Keccak-256 hash of the 64-byte
concatenation of the 32-byte key followed by the 32-byte left-zero-padded
big-endian base slot index — key first, slot index second — and
`calculatePoolStorageSlot` is its instance at base slot `POOL_STATE_SLOT`. -/
theorem calculateStorageSlot_spec (key slotNumber : Nat) (hk : key < 2 ^ 256)
    (hs : slotNumber < 2 ^ 256) :
    calculateStorageSlot key slotNumber =
      keccak256 (natToBytesBE 32 key ++ natToBytesBE 32 slotNumber)
    ∧ (natToBytesBE 32 key ++ natToBytesBE 32 slotNumber).length = 64
    ∧ (natToBytesBE 32 key).length = 32
    ∧ bytesToNatBE (natToBytesBE 32 key) = key
    ∧ bytesToNatBE (natToBytesBE 32 slotNumber) = slotNumber
    ∧ calculatePoolStorageSlot key = calculateStorageSlot key POOL_STATE_SLOT := by
  have h256 : (256 : Nat) ^ 32 = 2 ^ 256 := by decide
  refine ⟨?_, ?_, ?_, ?_, ?_, rfl⟩
  · simp [calculateStorageSlot, abiEncode, encodeWord]
  · simp [List.length_append, natToBytesBE_length]
  · simp [natToBytesBE_length]
  · rw [bytesToNatBE_natToBytesBE, h256, Nat.mod_eq_of_lt hk]
  · rw [bytesToNatBE_natToBytesBE, h256, Nat.mod_eq_of_lt hs]

/-- Witness for C1 at the known pool id and base slot 6. -/
theorem calculateStorageSlot_spec_witness :
    calculateStorageSlot KNOWN_POOL_ID 6 =
      keccak256 (natToBytesBE 32 KNOWN_POOL_ID ++ natToBytesBE 32 6)
    ∧ (natToBytesBE 32 KNOWN_POOL_ID ++ natToBytesBE 32 6).length = 64
    ∧ (natToBytesBE 32 KNOWN_POOL_ID).length = 32
    ∧ bytesToNatBE (natToBytesBE 32 KNOWN_POOL_ID) = KNOWN_POOL_ID
    ∧ bytesToNatBE (natToBytesBE 32 6) = 6
    ∧ calculatePoolStorageSlot KNOWN_POOL_ID = calculateStorageSlot KNOWN_POOL_ID POOL_STATE_SLOT :=
  calculateStorageSlot_spec KNOWN_POOL_ID 6 (by decide) (by decide)

/-! ### Decoder lemmas -/

theorem decode_sqrtPrice_eq (d : Nat) : (decodePoolState d).sqrtPriceX96 = d % 2 ^ 160 := by
  simp only [decodePoolState]
  rw [Nat.one_shiftLeft, Nat.and_pow_two_sub_one_eq_mod]

theorem decode_protocolFee_eq (d : Nat) :
    (decodePoolState d).protocolFee = (d >>> 184) % 2 ^ 24 := by
  simp only [decodePoolState]
  rw [Nat.one_shiftLeft, Nat.and_pow_two_sub_one_eq_mod]

theorem decode_lpFee_eq (d : Nat) : (decodePoolState d).lpFee = (d >>> 208) % 2 ^ 24 := by
  simp only [decodePoolState]
  rw [Nat.one_shiftLeft, Nat.and_pow_two_sub_one_eq_mod]

theorem decode_tick_eq (d : Nat) :
    (decodePoolState d).tick =
      if 2 ^ 23 ≤ (d >>> 160) % 2 ^ 24 then (((d >>> 160) % 2 ^ 24 : Nat) : Int) - 2 ^ 24
      else (((d >>> 160) % 2 ^ 24 : Nat) : Int) := by
  simp only [decodePoolState]
  rw [Nat.one_shiftLeft, Nat.one_shiftLeft, Nat.and_pow_two_sub_one_eq_mod]
  rcases le_or_lt (2 ^ 23) ((d >>> 160) % 2 ^ 24) with h | h
  · rw [if_pos (show (2 : Nat) ^ 23 - 1 < (d >>> 160) % 2 ^ 24 by omega), if_pos h]
    push_cast
    ring
  · rw [if_neg (show ¬(2 : Nat) ^ 23 - 1 < (d >>> 160) % 2 ^ 24 by omega),
      if_neg (not_le.mpr h)]

theorem decode_tick_bounds (d : Nat) :
    -2 ^ 23 ≤ (decodePoolState d).tick ∧ (decodePoolState d).tick ≤ 2 ^ 23 - 1 := by
  have hv : (d >>> 160) % 2 ^ 24 < 2 ^ 24 := Nat.mod_lt _ (by norm_num)
  rw [decode_tick_eq]
  rcases le_or_lt (2 ^ 23) ((d >>> 160) % 2 ^ 24) with h | h
  · rw [if_pos h]
    constructor <;> [skip; skip] <;> omega
  · rw [if_neg (not_le.mpr h)]
    constructor <;> omega

theorem testBit23_iff {v : Nat} (hv : v < 2 ^ 24) : v.testBit 23 = true ↔ 2 ^ 23 ≤ v := by
  rw [Nat.testBit_to_div_mod]
  simp only [decide_eq_true_eq]
  omega

theorem extract_congr {d1 d2 : Nat} (k w : Nat) (h : d1 % 2 ^ 232 = d2 % 2 ^ 232)
    (hkw : k + w ≤ 232) : (d1 >>> k) % 2 ^ w = (d2 >>> k) % 2 ^ w := by
  apply Nat.eq_of_testBit_eq
  intro i
  simp only [Nat.testBit_mod_two_pow, Nat.testBit_shiftRight]
  by_cases hi : i < w
  · have h1 : k + i < 232 := by omega
    have h2 := congrArg (fun x => x.testBit (k + i)) h
    simp only [Nat.testBit_mod_two_pow, decide_eq_true h1, Bool.true_and] at h2
    rw [h2]
  · simp [hi]

/-- C2: for every 256-bit word, the decoded 24-bit signed tick field is the
unsigned 24-bit value `v` extracted at bit offset 160, minus `2 ^ 24` exactly
when bit 23 of `v` is set; the bit pattern `0xFFFFFF` decodes to `-1` as signed
and to `16777215` as unsigned, and the signed field ranges over
`[-2 ^ 23, 2 ^ 23 - 1]`. -/
theorem decodePoolState_tick_spec (data : Nat) :
    ((decodePoolState data).tick =
      if ((data >>> 160) % 2 ^ 24).testBit 23 then
        (((data >>> 160) % 2 ^ 24 : Nat) : Int) - 2 ^ 24
      else (((data >>> 160) % 2 ^ 24 : Nat) : Int))
    ∧ (decodePoolState (0xffffff <<< 160)).tick = -1
    ∧ ((0xffffff <<< 160) >>> 160) &&& (2 ^ 24 - 1) = 16777215
    ∧ -2 ^ 23 ≤ (decodePoolState data).tick ∧ (decodePoolState data).tick ≤ 2 ^ 23 - 1 := by
  have hv : (data >>> 160) % 2 ^ 24 < 2 ^ 24 := Nat.mod_lt _ (by norm_num)
  refine ⟨?_, by decide, by decide, decode_tick_bounds data⟩
  rw [decode_tick_eq]
  by_cases hb : 2 ^ 23 ≤ (data >>> 160) % 2 ^ 24
  · rw [if_pos hb, if_pos ((testBit23_iff hv).mpr hb)]
  · rw [if_neg hb, if_neg (fun hc => hb ((testBit23_iff hv).mp hc))]

/-- C7: decoding the concrete raw word observed on chain yields the low-160-bit
unsigned price `0x085a6afa601db20218ff54` and the sign-extended 24-bit tick
`-179364` (the sign extension of `0xfd435c`). -/
theorem decodePoolState_concrete :
    (decodePoolState
        0x000000004e20000000fd435c000000000000000000085a6afa601db20218ff54).sqrtPriceX96 =
      0x085a6afa601db20218ff54
    ∧ (decodePoolState
        0x000000004e20000000fd435c000000000000000000085a6afa601db20218ff54).tick =
      -179364 := by
  constructor <;> decide

/-- C9: for every raw word, the decoded fields satisfy the layout's range
invariants: `sqrtPriceX96 < 2 ^ 160`, `tick ∈ [-2 ^ 23, 2 ^ 23 - 1]`, and the
two fee fields lie in `[0, 2 ^ 24)`; only the tick is sign-extended, so the
fees are never negative. -/
theorem decodePoolState_ranges (data : Nat) :
    (decodePoolState data).sqrtPriceX96 < 2 ^ 160
    ∧ -2 ^ 23 ≤ (decodePoolState data).tick ∧ (decodePoolState data).tick ≤ 2 ^ 23 - 1
    ∧ (decodePoolState data).protocolFee < 2 ^ 24
    ∧ (decodePoolState data).lpFee < 2 ^ 24
    ∧ (0 : Int) ≤ ((decodePoolState data).protocolFee : Int)
    ∧ (0 : Int) ≤ ((decodePoolState data).lpFee : Int) := by
  obtain ⟨hb1, hb2⟩ := decode_tick_bounds data
  refine ⟨?_, hb1, hb2, ?_, ?_, Int.natCast_nonneg _, Int.natCast_nonneg _⟩
  · rw [decode_sqrtPrice_eq]; exact Nat.mod_lt _ (by norm_num)
  · rw [decode_protocolFee_eq]; exact Nat.mod_lt _ (by norm_num)
  · rw [decode_lpFee_eq]; exact Nat.mod_lt _ (by norm_num)

/-- C10: the decoder ignores the top 24 bits of the word: any two raw words
that agree on bits 0 through 231 decode to the same `sqrtPriceX96`, `tick`,
`protocolFee`, and `lpFee`. -/
theorem decodePoolState_ignores_top_bits (d1 d2 : Nat) (h : d1 % 2 ^ 232 = d2 % 2 ^ 232) :
    (decodePoolState d1).sqrtPriceX96 = (decodePoolState d2).sqrtPriceX96
    ∧ (decodePoolState d1).tick = (decodePoolState d2).tick
    ∧ (decodePoolState d1).protocolFee = (decodePoolState d2).protocolFee
    ∧ (decodePoolState d1).lpFee = (decodePoolState d2).lpFee := by
  have hs : d1 % 2 ^ 160 = d2 % 2 ^ 160 := by
    have := extract_congr 0 160 h (by norm_num)
    simpa using this
  have ht : (d1 >>> 160) % 2 ^ 24 = (d2 >>> 160) % 2 ^ 24 :=
    extract_congr 160 24 h (by norm_num)
  have hp : (d1 >>> 184) % 2 ^ 24 = (d2 >>> 184) % 2 ^ 24 :=
    extract_congr 184 24 h (by norm_num)
  have hl : (d1 >>> 208) % 2 ^ 24 = (d2 >>> 208) % 2 ^ 24 :=
    extract_congr 208 24 h (by norm_num)
  refine ⟨?_, ?_, ?_, ?_⟩
  · rw [decode_sqrtPrice_eq, decode_sqrtPrice_eq, hs]
  · rw [decode_tick_eq, decode_tick_eq, ht]
  · rw [decode_protocolFee_eq, decode_protocolFee_eq, hp]
  · rw [decode_lpFee_eq, decode_lpFee_eq, hl]

/-- Witness for C10: the words `2 ^ 232` and `0` differ only above bit 231 and
decode to the same four field values. -/
theorem decodePoolState_ignores_top_bits_witness :
    (decodePoolState (2 ^ 232)).sqrtPriceX96 = (decodePoolState 0).sqrtPriceX96
    ∧ (decodePoolState (2 ^ 232)).tick = (decodePoolState 0).tick
    ∧ (decodePoolState (2 ^ 232)).protocolFee = (decodePoolState 0).protocolFee
    ∧ (decodePoolState (2 ^ 232)).lpFee = (decodePoolState 0).lpFee :=
  decodePoolState_ignores_top_bits (2 ^ 232) 0 (by decide)

/-! ### Address-ordering lemmas -/

theorem lexLt_asymm : ∀ (a b : List Nat), lexLt a b = true → lexLt b a = false := by
  intro a
  induction a with
  | nil =>
    intro b hb
    cases b with
    | nil => simp [lexLt] at hb
    | cons c cs => simp [lexLt]
  | cons x xs ih =>
    intro b hb
    cases b with
    | nil => simp [lexLt] at hb
    | cons y ys =>
      simp only [lexLt] at hb ⊢
      by_cases h1 : x < y
      · rw [if_neg (by omega : ¬y < x), if_pos h1]
      · by_cases h2 : y < x
        · rw [if_neg h1, if_pos h2] at hb
          exact absurd hb (by simp)
        · rw [if_neg h1, if_neg h2] at hb
          rw [if_neg h2, if_neg h1]
          exact ih ys hb

theorem lexLt_eq_of_not : ∀ (a b : List Nat), lexLt a b = false → lexLt b a = false →
    a = b := by
  intro a
  induction a with
  | nil =>
    intro b h1 h2
    cases b with
    | nil => rfl
    | cons c cs => simp [lexLt] at h1
  | cons x xs ih =>
    intro b h1 h2
    cases b with
    | nil => simp [lexLt] at h2
    | cons y ys =>
      simp only [lexLt] at h1 h2
      by_cases hxy : x < y
      · rw [if_pos hxy] at h1
        exact absurd h1 (by simp)
      · by_cases hyx : y < x
        · rw [if_pos hyx] at h2
          exact absurd h2 (by simp)
        · have hxy2 : x = y := by omega
          subst hxy2
          rw [if_neg hxy, if_neg hyx] at h1 h2
          rw [ih ys h1 h2]

theorem digitVal_lowerCode (c : Nat) (hc : isHexDigit c) :
    digitVal (lowerCode c) = digitVal c := by
  rcases hc with ⟨h1, h2⟩ | ⟨h1, h2⟩ | ⟨h1, h2⟩ <;>
    simp only [digitVal, lowerCode] <;> split_ifs <;> omega

theorem lowerCode_isLower (c : Nat) (hc : isHexDigit c) : isLowerHexDigit (lowerCode c) := by
  rcases hc with ⟨h1, h2⟩ | ⟨h1, h2⟩ | ⟨h1, h2⟩ <;>
    simp only [lowerCode, isLowerHexDigit] <;> split_ifs <;> omega

theorem digitVal_lt16 (c : Nat) (hc : isHexDigit c) : digitVal c < 16 := by
  rcases hc with ⟨h1, h2⟩ | ⟨h1, h2⟩ | ⟨h1, h2⟩ <;>
    simp only [digitVal] <;> split_ifs <;> omega

theorem digitVal_lower_mono (l m : Nat) (hl : isLowerHexDigit l) (hm : isLowerHexDigit m) :
    l < m ↔ digitVal l < digitVal m := by
  rcases hl with ⟨h1, h2⟩ | ⟨h1, h2⟩ <;> rcases hm with ⟨h3, h4⟩ | ⟨h3, h4⟩ <;>
    simp only [digitVal] <;> split_ifs <;> omega

theorem foldl16_init (ds : List Nat) : ∀ a : Nat,
    ds.foldl (fun acc d => 16 * acc + d) a =
      a * 16 ^ ds.length + ds.foldl (fun acc d => 16 * acc + d) 0 := by
  induction ds with
  | nil => intro a; simp
  | cons d ds ih =>
    intro a
    simp only [List.foldl, List.length_cons]
    rw [ih (16 * a + d), ih (16 * 0 + d)]
    ring

theorem addrVal_cons (c : Nat) (cs : List Nat) :
    addrVal (c :: cs) = digitVal c * 16 ^ cs.length + addrVal cs := by
  simp only [addrVal, List.map_cons, List.foldl_cons]
  rw [foldl16_init]
  simp [List.length_map]

theorem addrVal_lt_pow (cs : List Nat) (h : ∀ c ∈ cs, isHexDigit c) :
    addrVal cs < 16 ^ cs.length := by
  induction cs with
  | nil => simp [addrVal]
  | cons c cs ih =>
    rw [addrVal_cons]
    have hc : digitVal c < 16 := digitVal_lt16 c (h c (by simp))
    have hcs : addrVal cs < 16 ^ cs.length := ih (fun x hx => h x (by simp [hx]))
    have h1 : digitVal c * 16 ^ cs.length + addrVal cs <
        (digitVal c + 1) * 16 ^ cs.length := by
      rw [Nat.succ_mul]
      omega
    have h2 : (digitVal c + 1) * 16 ^ cs.length ≤ 16 * 16 ^ cs.length :=
      Nat.mul_le_mul_right _ (by omega)
    calc digitVal c * 16 ^ cs.length + addrVal cs
        < (digitVal c + 1) * 16 ^ cs.length := h1
      _ ≤ 16 * 16 ^ cs.length := h2
      _ = 16 ^ (cs.length + 1) := by rw [pow_succ, Nat.mul_comm]
      _ = 16 ^ (c :: cs).length := by simp

theorem lexLt_iff_val : ∀ (xs ys : List Nat), xs.length = ys.length →
    (∀ c ∈ xs, isLowerHexDigit c) → (∀ c ∈ ys, isLowerHexDigit c) →
    (lexLt xs ys = true ↔ addrVal xs < addrVal ys) := by
  intro xs
  induction xs with
  | nil =>
    intro ys hlen hx hy
    cases ys with
    | nil => simp [lexLt, addrVal]
    | cons y ys => simp at hlen
  | cons x xs ih =>
    intro ys hlen hx hy
    cases ys with
    | nil => simp at hlen
    | cons y ys =>
      have hlen2 : xs.length = ys.length := by simpa using hlen
      have hxh : isLowerHexDigit x := hx x (by simp)
      have hyh : isLowerHexDigit y := hy y (by simp)
      have hxhex : isHexDigit x := by rcases hxh with h | h <;> [exact Or.inl h; exact Or.inr (Or.inr h)]
      have hyhex : isHexDigit y := by rcases hyh with h | h <;> [exact Or.inl h; exact Or.inr (Or.inr h)]
      have hxv : addrVal xs < 16 ^ xs.length :=
        addrVal_lt_pow xs (fun c hc => by
          rcases hx c (by simp [hc]) with h | h <;> [exact Or.inl h; exact Or.inr (Or.inr h)])
      have hyv : addrVal ys < 16 ^ ys.length :=
        addrVal_lt_pow ys (fun c hc => by
          rcases hy c (by simp [hc]) with h | h <;> [exact Or.inl h; exact Or.inr (Or.inr h)])
      rw [hlen2] at hxv
      simp only [lexLt]
      rw [addrVal_cons, addrVal_cons, hlen2]
      by_cases h1 : x < y
      · rw [if_pos h1]
        have hd : digitVal x < digitVal y := (digitVal_lower_mono x y hxh hyh).mp h1
        constructor
        · intro _
          calc digitVal x * 16 ^ ys.length + addrVal xs
              < (digitVal x + 1) * 16 ^ ys.length := by rw [Nat.succ_mul]; omega
            _ ≤ digitVal y * 16 ^ ys.length := Nat.mul_le_mul_right _ (by omega)
            _ ≤ digitVal y * 16 ^ ys.length + addrVal ys := by omega
        · intro _; rfl
      · by_cases h2 : y < x
        · rw [if_neg h1, if_pos h2]
          have hd : digitVal y < digitVal x := (digitVal_lower_mono y x hyh hxh).mp h2
          constructor
          · intro hc; exact absurd hc (by simp)
          · intro hc
            have : digitVal y * 16 ^ ys.length + addrVal ys <
                digitVal x * 16 ^ ys.length + addrVal xs := by
              calc digitVal y * 16 ^ ys.length + addrVal ys
                  < (digitVal y + 1) * 16 ^ ys.length := by rw [Nat.succ_mul]; omega
                _ ≤ digitVal x * 16 ^ ys.length := Nat.mul_le_mul_right _ (by omega)
                _ ≤ digitVal x * 16 ^ ys.length + addrVal xs := by omega
            omega
        · have hxy : x = y := by omega
          subst hxy
          rw [if_neg h1, if_neg h2]
          rw [ih ys hlen2 (fun c hc => hx c (by simp [hc])) (fun c hc => hy c (by simp [hc]))]
          omega

theorem map_lower_lower (a : List Nat) (h : ∀ c ∈ a, isHexDigit c) :
    ∀ c ∈ a.map lowerCode, isLowerHexDigit c := by
  intro c hc
  rw [List.mem_map] at hc
  obtain ⟨d, hd, rfl⟩ := hc
  exact lowerCode_isLower d (h d hd)

theorem addrVal_map_lower (a : List Nat) (h : ∀ c ∈ a, isHexDigit c) :
    addrVal (a.map lowerCode) = addrVal a := by
  simp only [addrVal, List.map_map]
  congr 1
  apply List.map_congr_left
  intro c hc
  exact digitVal_lowerCode c (h c hc)

theorem addrLt_iff_val (a b : List Nat) (ha : validAddr a) (hb : validAddr b) :
    addrLt a b = true ↔ addrVal a < addrVal b := by
  obtain ⟨ha1, ha2⟩ := ha
  obtain ⟨hb1, hb2⟩ := hb
  rw [addrLt, lexLt_iff_val (a.map lowerCode) (b.map lowerCode)
    (by simp [ha1, hb1]) (map_lower_lower a ha2) (map_lower_lower b hb2),
    addrVal_map_lower a ha2, addrVal_map_lower b hb2]

/-- C3: for every pair of distinct well-formed addresses and fixed fee, tick
spacing and hook, `calculatePoolId` is symmetric in the two currency
addresses: swapping the call-site order never changes the identifier. -/
theorem calculatePoolId_symm (a b : List Nat) (fee : Nat) (tickSpacing : Int)
    (hook : List Nat) (ha : validAddr a) (hb : validAddr b) (_hab : a ≠ b) :
    calculatePoolId a b fee tickSpacing hook = calculatePoolId b a fee tickSpacing hook := by
  cases h1 : addrLt a b with
  | true =>
    have h2 : addrLt b a = false := lexLt_asymm _ _ h1
    simp [calculatePoolId, canonicalPair, h1, h2]
  | false =>
    cases h2 : addrLt b a with
    | true => simp [calculatePoolId, canonicalPair, h1, h2]
    | false =>
      have hmap : a.map lowerCode = b.map lowerCode := lexLt_eq_of_not _ _ h1 h2
      have hval : addrVal a = addrVal b := by
        rw [← addrVal_map_lower a ha.2, ← addrVal_map_lower b hb.2, hmap]
      simp [calculatePoolId, canonicalPair, h1, h2, hval]

/-- Witness for C3 at the two currency addresses, fee, tick spacing and hook
of the usage example in `Uniswapv4PoolReader.js`. -/
theorem calculatePoolId_symm_witness :
    calculatePoolId currency0Codes currency1Codes 8388608 60 hookAddressCodes =
      calculatePoolId currency1Codes currency0Codes 8388608 60 hookAddressCodes :=
  calculatePoolId_symm currency0Codes currency1Codes 8388608 60 hookAddressCodes
    (by decide) (by decide) (by decide)

/-- C4: for well-formed addresses the script's canonicalization is exactly
numeric comparison of the two 160-bit address values: the string comparison
agrees with `addrVal` comparison, the numerically smaller address is placed
first, and on ties (equal values) the chosen value pair equals the input
value pair. -/
theorem canonicalPair_spec (a b : List Nat) (ha : validAddr a) (hb : validAddr b) :
    addrVal a < 2 ^ 160 ∧ addrVal b < 2 ^ 160
    ∧ (addrLt a b = true ↔ addrVal a < addrVal b)
    ∧ (addrVal a < addrVal b → canonicalPair a b = (a, b))
    ∧ (addrVal b < addrVal a → canonicalPair a b = (b, a))
    ∧ (addrVal (canonicalPair a b).1, addrVal (canonicalPair a b).2) =
        (if addrVal a ≤ addrVal b then (addrVal a, addrVal b)
         else (addrVal b, addrVal a)) := by
  have hiff := addrLt_iff_val a b ha hb
  have h16 : (16 : Nat) ^ 40 = 2 ^ 160 := by norm_num
  have h160a : addrVal a < 2 ^ 160 := by
    have h := addrVal_lt_pow a ha.2
    rw [ha.1, h16] at h
    exact h
  have h160b : addrVal b < 2 ^ 160 := by
    have h := addrVal_lt_pow b hb.2
    rw [hb.1, h16] at h
    exact h
  have hfalse : ¬addrVal a < addrVal b → addrLt a b = false := by
    intro h
    cases hc : addrLt a b
    · rfl
    · exact absurd (hiff.mp hc) h
  refine ⟨h160a, h160b, hiff, ?_, ?_, ?_⟩
  · intro h
    unfold canonicalPair
    rw [if_pos (hiff.mpr h)]
  · intro h
    unfold canonicalPair
    rw [hfalse (by omega)]
    simp
  · by_cases h : addrVal a < addrVal b
    · unfold canonicalPair
      rw [if_pos (hiff.mpr h), if_pos (Nat.le_of_lt h)]
    · by_cases he : addrVal a = addrVal b
      · unfold canonicalPair
        rw [hfalse (by omega)]
        simp only [Bool.false_eq_true, if_false]
        rw [if_pos (Nat.le_of_eq he), he]
      · unfold canonicalPair
        rw [hfalse (by omega)]
        simp only [Bool.false_eq_true, if_false]
        rw [if_neg (by omega)]

/-- Witness for C4 at the two currency addresses of the usage example. -/
theorem canonicalPair_spec_witness :
    addrVal currency0Codes < 2 ^ 160 ∧ addrVal currency1Codes < 2 ^ 160
    ∧ (addrLt currency0Codes currency1Codes = true ↔
        addrVal currency0Codes < addrVal currency1Codes)
    ∧ (addrVal currency0Codes < addrVal currency1Codes →
        canonicalPair currency0Codes currency1Codes = (currency0Codes, currency1Codes))
    ∧ (addrVal currency1Codes < addrVal currency0Codes →
        canonicalPair currency0Codes currency1Codes = (currency1Codes, currency0Codes))
    ∧ (addrVal (canonicalPair currency0Codes currency1Codes).1,
        addrVal (canonicalPair currency0Codes currency1Codes).2) =
        (if addrVal currency0Codes ≤ addrVal currency1Codes then
          (addrVal currency0Codes, addrVal currency1Codes)
         else (addrVal currency1Codes, addrVal currency0Codes)) :=
  canonicalPair_spec currency0Codes currency1Codes (by decide) (by decide)

/-! ### Probe-loop lemmas -/

theorem readStorageSlot_eq_some (g : List Nat → Except Unit (List Nat)) (s e : List Nat) :
    readStorageSlot g s = some e ↔ g s = Except.ok e := by
  unfold readStorageSlot
  cases h : g s <;> simp

theorem probeLoop_some_inv (g : List Nat → Except Unit (List Nat)) (p : Nat)
    (e : List Nat) : ∀ count start i, probeLoop g p e count start = some i →
    start ≤ i ∧ i < start + count ∧
    readStorageSlot g (calculateStorageSlot p i) = some e ∧
    ∀ j, start ≤ j → j < i → readStorageSlot g (calculateStorageSlot p j) ≠ some e := by
  intro count
  induction count with
  | zero => intro start i h; simp [probeLoop] at h
  | succ n ih =>
    intro start i h
    simp only [probeLoop] at h
    cases hr : readStorageSlot g (calculateStorageSlot p start) with
    | some data =>
      rw [hr] at h
      dsimp only at h
      by_cases hd : data = e
      · rw [if_pos hd] at h
        have hi : start = i := by
          simpa using h
        subst hi
        subst hd
        exact ⟨Nat.le_refl _, by omega, hr, fun j h1 h2 => absurd h2 (by omega)⟩
      · rw [if_neg hd] at h
        obtain ⟨ih1, ih2, ih3, ih4⟩ := ih (start + 1) i h
        refine ⟨by omega, by omega, ih3, ?_⟩
        intro j hj1 hj2
        rcases Nat.eq_or_lt_of_le hj1 with rfl | hj
        · rw [hr]
          intro hc
          exact hd (by simpa using hc)
        · exact ih4 j (by omega) hj2
    | none =>
      rw [hr] at h
      obtain ⟨ih1, ih2, ih3, ih4⟩ := ih (start + 1) i h
      refine ⟨by omega, by omega, ih3, ?_⟩
      intro j hj1 hj2
      rcases Nat.eq_or_lt_of_le hj1 with rfl | hj
      · rw [hr]
        exact fun hc => Option.noConfusion hc
      · exact ih4 j (by omega) hj2

theorem probeLoop_eq_some (g : List Nat → Except Unit (List Nat)) (p : Nat)
    (e : List Nat) : ∀ count start i, start ≤ i → i < start + count →
    readStorageSlot g (calculateStorageSlot p i) = some e →
    (∀ j, start ≤ j → j < i → readStorageSlot g (calculateStorageSlot p j) ≠ some e) →
    probeLoop g p e count start = some i := by
  intro count
  induction count with
  | zero => intro start i h1 h2 h3 h4; exact absurd h2 (by omega)
  | succ n ih =>
    intro start i h1 h2 h3 h4
    simp only [probeLoop]
    rcases Nat.eq_or_lt_of_le h1 with rfl | hlt
    · rw [h3]
      dsimp only
      rw [if_pos rfl]
    · have hne : readStorageSlot g (calculateStorageSlot p start) ≠ some e :=
        h4 start (Nat.le_refl _) hlt
      cases hr : readStorageSlot g (calculateStorageSlot p start) with
      | some data =>
        have hd : data ≠ e := fun hd => hne (by rw [hr, hd])
        dsimp only
        rw [if_neg hd]
        exact ih (start + 1) i (by omega) (by omega) h3 (fun j a b => h4 j (by omega) b)
      | none =>
        exact ih (start + 1) i (by omega) (by omega) h3 (fun j a b => h4 j (by omega) b)

theorem probeLoop_eq_none (g : List Nat → Except Unit (List Nat)) (p : Nat)
    (e : List Nat) : ∀ count start,
    (∀ i, start ≤ i → i < start + count →
      readStorageSlot g (calculateStorageSlot p i) ≠ some e) →
    probeLoop g p e count start = none := by
  intro count
  induction count with
  | zero => intro start h; rfl
  | succ n ih =>
    intro start h
    simp only [probeLoop]
    cases hr : readStorageSlot g (calculateStorageSlot p start) with
    | some data =>
      have hne : data ≠ e := fun hd => h start (Nat.le_refl _) (by omega) (by rw [hr, hd])
      dsimp only
      rw [if_neg hne]
      exact ih (start + 1) (fun i h1 h2 => h i (by omega) (by omega))
    | none => exact ih (start + 1) (fun i h1 h2 => h i (by omega) (by omega))

/-- C5: for every total reader function, key, expected word and inclusive
candidate range `[lo, hi]`, the probe loop returns `some i` exactly when `i`
is the lowest index in the range whose derived slot reads back equal (as a
byte list) to the expected word; it returns `none` when no index in the range
matches, and in particular an all-zero reader with a non-zero expected word
yields `none`. -/
theorem probeLoop_total_spec (f : List Nat → List Nat) (poolId : Nat)
    (expected : List Nat) (lo hi : Nat) :
    (∀ i, probeLoop (fun s => Except.ok (f s)) poolId expected (hi + 1 - lo) lo = some i →
      lo ≤ i ∧ i ≤ hi ∧ f (calculateStorageSlot poolId i) = expected ∧
      ∀ j, lo ≤ j → j < i → f (calculateStorageSlot poolId j) ≠ expected)
    ∧ (∀ i, lo ≤ i → i ≤ hi → f (calculateStorageSlot poolId i) = expected →
      (∀ j, lo ≤ j → j < i → f (calculateStorageSlot poolId j) ≠ expected) →
      probeLoop (fun s => Except.ok (f s)) poolId expected (hi + 1 - lo) lo = some i)
    ∧ ((∀ i, lo ≤ i → i ≤ hi → f (calculateStorageSlot poolId i) ≠ expected) →
      probeLoop (fun s => Except.ok (f s)) poolId expected (hi + 1 - lo) lo = none)
    ∧ (expected ≠ zeroWord32 →
      probeLoop (fun _ => Except.ok zeroWord32) poolId expected (hi + 1 - lo) lo = none) := by
  have hread : ∀ s e, readStorageSlot (fun s => Except.ok (f s)) s = some e ↔ f s = e := by
    intro s e
    simp [readStorageSlot]
  refine ⟨?_, ?_, ?_, ?_⟩
  · intro i h
    obtain ⟨h1, h2, h3, h4⟩ := probeLoop_some_inv _ _ _ _ _ _ h
    refine ⟨h1, by omega, (hread _ _).mp h3, ?_⟩
    intro j hj1 hj2 hj3
    exact h4 j hj1 hj2 ((hread _ _).mpr hj3)
  · intro i h1 h2 h3 h4
    refine probeLoop_eq_some _ _ _ _ _ _ h1 (by omega) ((hread _ _).mpr h3) ?_
    intro j hj1 hj2 hc
    exact h4 j hj1 hj2 ((hread _ _).mp hc)
  · intro h
    refine probeLoop_eq_none _ _ _ _ _ ?_
    intro i h1 h2 hc
    exact h i h1 (by omega) ((hread _ _).mp hc)
  · intro h
    refine probeLoop_eq_none _ _ _ _ _ ?_
    intro i h1 h2 hc
    have : zeroWord32 = expected := by simpa [readStorageSlot] using hc
    exact h this.symm

/-- Witness for C5: a synthetic reader holding the expected word only at the
index-3 slot makes the 0..20 probe return exactly index 3, and the all-zero
reader makes it return `none`. -/
theorem probeLoop_total_spec_witness :
    probeLoop (fun s => Except.ok (syntheticReader s)) KNOWN_POOL_ID EXPECTED_RAW_DATA
      (20 + 1 - 0) 0 = some 3
    ∧ probeLoop (fun _ => Except.ok zeroWord32) KNOWN_POOL_ID EXPECTED_RAW_DATA
      (20 + 1 - 0) 0 = none := by
  constructor
  · refine (probeLoop_total_spec syntheticReader KNOWN_POOL_ID EXPECTED_RAW_DATA 0 20).2.1
      3 (by decide) (by decide) (by decide) ?_
    intro j h1 h2
    interval_cases j <;> decide
  · exact (probeLoop_total_spec syntheticReader KNOWN_POOL_ID EXPECTED_RAW_DATA 0 20).2.2.2
      (by decide)

/-- C6 counterexample: with a reader that fails (throws) at the index-0 slot
and holds the expected word at the index-1 slot, `findCorrectPoolsSlot` does
not abort or surface the failure: `readStorageSlot` swallows the error into
`null`, the failing index is skipped, the search continues, and the probe
returns index 1. -/
theorem findCorrectPoolsSlot_swallows_failure :
    failingReader (calculateStorageSlot KNOWN_POOL_ID 0) = Except.error ()
    ∧ findCorrectPoolsSlot failingReader = some 1 := by
  constructor
  · decide
  · decide

/-- C6 amended: a reader failure at an index is caught by `readStorageSlot`
(which returns `null`), that index is skipped as a non-match, and the search
continues: the probe returns the lowest index whose read succeeds with the
expected word, and `none` when no read does; failures never propagate to the
caller. -/
theorem probeLoop_failure_skipped (g : List Nat → Except Unit (List Nat)) (poolId : Nat)
    (expected : List Nat) (lo hi : Nat) :
    (∀ i, probeLoop g poolId expected (hi + 1 - lo) lo = some i →
      lo ≤ i ∧ i ≤ hi ∧ g (calculateStorageSlot poolId i) = Except.ok expected ∧
      ∀ j, lo ≤ j → j < i → g (calculateStorageSlot poolId j) ≠ Except.ok expected)
    ∧ ((∀ i, lo ≤ i → i ≤ hi → g (calculateStorageSlot poolId i) ≠ Except.ok expected) →
      probeLoop g poolId expected (hi + 1 - lo) lo = none) := by
  constructor
  · intro i h
    obtain ⟨h1, h2, h3, h4⟩ := probeLoop_some_inv _ _ _ _ _ _ h
    refine ⟨h1, by omega, (readStorageSlot_eq_some _ _ _).mp h3, ?_⟩
    intro j hj1 hj2 hc
    exact h4 j hj1 hj2 ((readStorageSlot_eq_some _ _ _).mpr hc)
  · intro h
    refine probeLoop_eq_none _ _ _ _ _ ?_
    intro i h1 h2 hc
    exact h i h1 (by omega) ((readStorageSlot_eq_some _ _ _).mp hc)

/-- Witness for the amended C6: applied to the failing reader on the script's
0..20 range, the probe's result `some 1` certifies that index 1 is the lowest
index whose read succeeds with the expected word — the failing index 0 was
skipped, not surfaced. -/
theorem probeLoop_failure_skipped_witness :
    0 ≤ 1 ∧ 1 ≤ 20 ∧
    failingReader (calculateStorageSlot KNOWN_POOL_ID 1) = Except.ok EXPECTED_RAW_DATA ∧
    ∀ j, 0 ≤ j → j < 1 →
      failingReader (calculateStorageSlot KNOWN_POOL_ID j) ≠ Except.ok EXPECTED_RAW_DATA :=
  (probeLoop_failure_skipped failingReader KNOWN_POOL_ID EXPECTED_RAW_DATA 0 20).1
    1 (by decide)

/-- C8: hashing the padded ABI encoding of a `(bytes32, uint256)` pair equals
hashing its tightly packed encoding — the two encoders agree on this type
list — and in particular `debug.js`'s `calculatedSlot` equals `manualHash` at
the concrete known pool id and base slot 6. -/
theorem calculatedSlot_eq_manualHash :
    (∀ key slotNumber : Nat,
      keccak256 (abiEncode [.bytes32 key, .uint256 slotNumber]) =
        keccak256 (solidityPacked [.bytes32 key, .uint256 slotNumber]))
    ∧ calculatedSlot = manualHash := by
  have h : encodedSlot = manualEncoded := by decide
  have hgen : ∀ key slotNumber : Nat,
      abiEncode [.bytes32 key, .uint256 slotNumber] =
        solidityPacked [.bytes32 key, .uint256 slotNumber] := by
    intro key slotNumber
    simp [abiEncode, solidityPacked, encodeWord, packedWord]
  exact ⟨fun key slotNumber => congrArg keccak256 (hgen key slotNumber),
    congrArg keccak256 h⟩

/-! ### Keccak-256 sanity vectors -/

/-- Keccak-256 of the empty input is the well-known empty-code hash
`0xc5d2460186f7233c927e7db2dcc703c0e500b653ca82273b7bfad8045d85a470`. -/
theorem keccak256_nil :
    keccak256 [] =
      [0xc5, 0xd2, 0x46, 0x01, 0x86, 0xf7, 0x23, 0x3c, 0x92, 0x7e, 0x7d, 0xb2, 0xdc, 0xc7,
       0x03, 0xc0, 0xe5, 0x00, 0xb6, 0x53, 0xca, 0x82, 0x27, 0x3b, 0x7b, 0xfa, 0xd8, 0x04,
       0x5d, 0x85, 0xa4, 0x70] := by
  decide

/-- Keccak-256 of 64 zero bytes is the mapping-slot hash of key 0 at base
slot 0, `0xad3228b676f7d3cd4284a5443f17f1962b36e491b30a40b2405849e597ba5fb5`. -/
theorem keccak256_zeroPair :
    keccak256 (List.replicate 64 0) =
      [0xad, 0x32, 0x28, 0xb6, 0x76, 0xf7, 0xd3, 0xcd, 0x42, 0x84, 0xa5, 0x44, 0x3f, 0x17,
       0xf1, 0x96, 0x2b, 0x36, 0xe4, 0x91, 0xb3, 0x0a, 0x40, 0xb2, 0x40, 0x58, 0x49, 0xe5,
       0x97, 0xba, 0x5f, 0xb5] := by
  decide
